import Mathlib

/-
Verification development for the DAWlite playback and editing core.

Shallow embedding conventions:
  * JavaScript numbers that hold times, durations, gains and pans are
    modelled by rationals (Rat); all arithmetic identities under scrutiny
    are exact and carry over.
  * The React state record (tracks, loopRegion) is the ProjectState
    structure from src/types.ts.
  * Web Audio side effects (connect, start, setTargetAtTime) are modelled
    as explicit edge lists / command records produced by the handlers.
-/

namespace DAWlite

/- Data model, operations, and sample values (definitions). -/

/-- Track type tag, mirroring the TypeScript union 'audio' | 'midi'. -/
inductive TrackType
  | audio
  | midi
deriving DecidableEq, Repr

/-- EQ effect parameters (src/types.ts EQSettings). -/
structure EQSettings where
  frequency : Rat
  gain : Rat
  q : Rat
deriving DecidableEq, Repr

/-- Compressor effect parameters (src/types.ts CompressorSettings). -/
structure CompressorSettings where
  threshold : Rat
  ratio : Rat
  attack : Rat
  release : Rat
  knee : Rat
deriving DecidableEq, Repr

/-- The payload of the discriminated union in src/types.ts Effect. -/
inductive EffectSpec
  | eqEffect (params : EQSettings)
  | compressorEffect (params : CompressorSettings)
deriving DecidableEq, Repr

/-- An effect instance: unique id plus its typed parameter set. -/
structure Effect where
  id : String
  spec : EffectSpec
deriving DecidableEq, Repr

/-- An audio clip (src/types.ts AudioClip). -/
structure AudioClip where
  clipId : String
  fileId : String
  name : String
  startTime : Rat
  startOffset : Rat
  duration : Rat
  sourceDuration : Rat
  isSelected : Bool
deriving DecidableEq, Repr

/-- A track (src/types.ts Track). -/
structure Track where
  id : Int
  name : String
  trackType : TrackType
  volume : Rat
  pan : Rat
  isMuted : Bool
  isSoloed : Bool
  effects : List Effect
  clips : List AudioClip
deriving DecidableEq, Repr

/-- Loop region; the field stop models the source field named end
(a reserved word in Lean). -/
structure LoopRegion where
  start : Rat
  stop : Rat
deriving DecidableEq, Repr

/-- Project state (src/types.ts ProjectState). -/
structure ProjectState where
  tracks : List Track
  loopRegion : Option LoopRegion
deriving DecidableEq, Repr

/-- All clips of the project, track order preserved (the iteration
order used by getSelectedClip, handlePlay and handleExportAudio). -/
def allClips (p : ProjectState) : List AudioClip :=
  p.tracks.foldr (fun tr acc => tr.clips ++ acc) []

/-- The per-clip data-model invariant of spec section 3: nonnegative
source offset, positive duration, and the clip window fits inside the
source material up to the tolerance eps. -/
def clipInvariant (eps : Rat) (c : AudioClip) : Prop :=
  0 ≤ c.startOffset ∧ 0 < c.duration ∧
    c.startOffset + c.duration ≤ c.sourceDuration + eps

instance (eps : Rat) (c : AudioClip) : Decidable (clipInvariant eps c) := by
  unfold clipInvariant; infer_instance

/-- Trim-start branch of handleClipEditing
(src/components/DAWContainer.tsx lines 269-277), as a pure function of
the initial clip state and the pointer delta. -/
def trimStart (c : AudioClip) (delta : Rat) : AudioClip :=
  let newStartTime := max 0 (c.startTime + delta)
  let newDuration := c.duration - (newStartTime - c.startTime)
  let newStartOffset := c.startOffset + (newStartTime - c.startTime)
  if 0 < newDuration ∧ 0 ≤ newStartOffset then
    { c with startTime := newStartTime, duration := newDuration,
             startOffset := newStartOffset }
  else c

/-- Trim-end branch of handleClipEditing
(src/components/DAWContainer.tsx lines 278-286). -/
def trimEnd (c : AudioClip) (delta : Rat) : AudioClip :=
  let newDuration := min (c.duration + delta) (c.sourceDuration - c.startOffset)
  if 0 < newDuration then { c with duration := newDuration } else c

end DAWlite

namespace DAWlite

/-- Concrete clip used by the C1 witness. -/
def sampleTrimClip : AudioClip :=
  { clipId := "c1", fileId := "f1", name := "a", startTime := 1,
    startOffset := 1, duration := 4, sourceDuration := 6,
    isSelected := false }

/-- Search for the selected clip, first track first
(src/components/DAWContainer.tsx getSelectedClip, lines 137-143). -/
def findSelected : List Track → Option (AudioClip × Int)
  | [] => none
  | tr :: rest =>
    match tr.clips.find? (fun c => c.isSelected) with
    | some c => some (c, tr.id)
    | none => findSelected rest

/-- First half of a split: keeps the id, shortened to the split point,
selected (src/components/DAWContainer.tsx lines 479-483). -/
def splitClip1 (c : AudioClip) (t : Rat) : AudioClip :=
  { c with duration := t - c.startTime, isSelected := true }

/-- Second half of a split: fresh id, starts at the split point with the
advanced source offset and the remaining duration, unselected
(src/components/DAWContainer.tsx lines 484-491). -/
def splitClip2 (c : AudioClip) (t : Rat) (fresh : String) : AudioClip :=
  { c with clipId := fresh, startTime := t,
           startOffset := c.startOffset + (t - c.startTime),
           duration := c.duration - (t - c.startTime), isSelected := false }

/-- Replacement of the clip with the given id by the two halves inside a
track's clip list; mirrors findIndex plus splice
(src/components/DAWContainer.tsx lines 493-500). -/
def splitTrack (cid : String) (c1 c2 : AudioClip) (tr : Track) : Track :=
  match tr.clips.findIdx? (fun x => x.clipId == cid) with
  | none => tr
  | some i =>
      { tr with clips := tr.clips.take i ++ [c1, c2] ++ tr.clips.drop (i+1) }

/-- handleSplit (src/components/DAWContainer.tsx lines 472-503): split
the selected clip at the playhead, a no-op when there is no selection or
the playhead is not strictly inside the clip. -/
def handleSplit (p : ProjectState) (playhead : Rat) (fresh : String) :
    ProjectState :=
  match findSelected p.tracks with
  | none => p
  | some (c, trackId) =>
    if playhead ≤ c.startTime ∨ c.startTime + c.duration ≤ playhead then p
    else
      { p with tracks := p.tracks.map (fun tr =>
          if tr.id ≠ trackId then tr
          else splitTrack c.clipId (splitClip1 c playhead)
                 (splitClip2 c playhead fresh) tr) }

/-- Concrete selected clip used by the C2 witness. -/
def sampleSplitClip : AudioClip :=
  { clipId := "a", fileId := "f", name := "n", startTime := 0,
    startOffset := 0, duration := 10, sourceDuration := 10,
    isSelected := true }

/-- Concrete one-track project used by the C2 witness. -/
def sampleSplitProject : ProjectState :=
  { tracks := [{ id := 1, name := "Audio 1", trackType := TrackType.audio,
                 volume := 8/10, pan := 0, isMuted := false,
                 isSoloed := false, effects := [],
                 clips := [sampleSplitClip] }],
    loopRegion := none }

/-- Whether some track of the project is soloed
(src/components/DAWContainer.tsx line 549). -/
def anySoloed (p : ProjectState) : Bool :=
  p.tracks.any (fun t => t.isSoloed)

/-- A track plays live audio unless it is not an audio track, is muted,
or is soloed-out (src/components/DAWContainer.tsx line 212). -/
def trackEligible (anySolo : Bool) (tr : Track) : Bool :=
  tr.trackType == TrackType.audio && !tr.isMuted &&
    !(anySolo && !tr.isSoloed)

/-- The source.start command issued for one clip: absolute device time,
offset into the source buffer, and bounded duration. -/
structure ScheduledSource where
  clipId : String
  playAt : Rat
  playOffset : Rat
  playDuration : Rat
deriving DecidableEq, Repr

/-- Per-clip scheduling arithmetic of handlePlay
(src/components/DAWContainer.tsx lines 218-234); bufDuration is the
decoded buffer's duration. -/
def scheduleClip (paused deviceNow bufDuration : Rat) (c : AudioClip) :
    Option ScheduledSource :=
  if c.startTime + c.duration ≤ paused then none
  else
    let playAt := deviceNow + max 0 (c.startTime - paused)
    let playOffset := if c.startTime < paused then
        min (c.startOffset + (paused - c.startTime)) bufDuration
      else c.startOffset
    let playDuration := if c.startTime < paused then
        max 0 (c.duration - (paused - c.startTime))
      else c.duration
    if playDuration ≤ 0 then none
    else some { clipId := c.clipId, playAt := playAt,
                playOffset := playOffset, playDuration := playDuration }

/-- Schedules issued for the clips of one track; clips without a decoded
buffer are skipped (src/components/DAWContainer.tsx lines 214-216). -/
def trackSchedules (paused deviceNow : Rat) (bufDur : String → Option Rat)
    (tr : Track) : List ScheduledSource :=
  tr.clips.filterMap (fun c =>
    match bufDur c.fileId with
    | none => none
    | some d => scheduleClip paused deviceNow d c)

/-- handlePlay (src/components/DAWContainer.tsx lines 203-240), as the
list of source.start commands it issues, in track order. -/
def handlePlay (p : ProjectState) (paused deviceNow : Rat)
    (bufDur : String → Option Rat) : List ScheduledSource :=
  p.tracks.foldr (fun tr acc =>
    (if trackEligible (anySoloed p) tr then
        trackSchedules paused deviceNow bufDur tr
      else []) ++ acc) []

/-- Concrete clip spanning [0,10) with startOffset 0, used by the
end-to-end part of C3. -/
def samplePlayClip : AudioClip :=
  { clipId := "a", fileId := "f", name := "n", startTime := 0,
    startOffset := 0, duration := 10, sourceDuration := 10,
    isSelected := false }

/-- Concrete audio track used by the C3 witness. -/
def samplePlayTrack : Track :=
  { id := 1, name := "Audio 1", trackType := TrackType.audio,
    volume := 8/10, pan := 0, isMuted := false, isSoloed := false,
    effects := [], clips := [samplePlayClip] }

/-- Concrete one-track project used by the C3 witness. -/
def samplePlayProject : ProjectState :=
  { tracks := [samplePlayTrack], loopRegion := none }

/-- Buffer-duration table used by the C3 witness. -/
def samplePlayBuffers : String → Option Rat := fun _ => some 10

/-- A node of the per-track Web Audio graph built by ChannelStrip. -/
inductive Node
  | source (clipId : String)
  | eqNode (effectId : String)
  | compressorNode (effectId : String)
  | panner
  | gain
  | meter
  | dest
deriving DecidableEq, Repr

/-- The audio node created for one effect
(src/components/ChannelStrip.tsx lines 86-88). -/
def effectAudioNode (e : Effect) : Node :=
  match e.spec with
  | .eqEffect _ => Node.eqNode e.id
  | .compressorEffect _ => Node.compressorNode e.id

/-- The effect-wiring fold of ChannelStrip
(src/components/ChannelStrip.tsx lines 83-95): iterate the effect list in
reverse declared order, connecting each created node into the node wired
so far (initially the panner), and return the connection edges made in
order together with the final clip-adjacent entry node. -/
def effectFold (es : List Effect) : List (Node × Node) × Node :=
  es.foldl (fun acc e =>
    (acc.1 ++ [(effectAudioNode e, acc.2)], effectAudioNode e))
    ([], Node.panner)

/-- The full connection list made by the effect-chain useEffect of
ChannelStrip (src/components/ChannelStrip.tsx lines 74-107): effect
edges, then each clip source into the entry node, then panner into gain,
gain into destination and, when the meter worklet is up, gain into the
meter tap. -/
def buildChain (tr : Track) (hasMeter : Bool) : List (Node × Node) :=
  let f := effectFold tr.effects.reverse
  f.1 ++ tr.clips.map (fun c => (Node.source c.clipId, f.2)) ++
    [(Node.panner, Node.gain), (Node.gain, Node.dest)] ++
    (if hasMeter then [(Node.gain, Node.meter)] else [])

/-- The processing path stated by the spec: the declared effect list in
order, index 0 first, ending at the panner. -/
def chainNodes (es : List Effect) : List Node :=
  es.map effectAudioNode ++ [Node.panner]

/-- Consecutive pairs of a node list: the edges of the path it spells. -/
def consecEdges : List Node → List (Node × Node)
  | a :: b :: rest => (a, b) :: consecEdges (b :: rest)
  | _ => []

/-- Concrete two-effect track used by the C4 witness. -/
def sampleFxTrack : Track :=
  { id := 1, name := "Audio 1", trackType := TrackType.audio,
    volume := 8/10, pan := 0, isMuted := false, isSoloed := false,
    effects := [{ id := "e0", spec := EffectSpec.eqEffect
                    { frequency := 1000, gain := 3, q := 1 } },
                { id := "e1", spec := EffectSpec.compressorEffect
                    { threshold := -24, ratio := 4, attack := 3/1000,
                      release := 1/4, knee := 30 } }],
    clips := [samplePlayClip] }

/-- The smoothing time constant of parameter updates
(src/components/ChannelStrip.tsx line 34, RAMP_TIME = 0.01). -/
def RAMP_TIME : Rat := 1/100

/-- A setTargetAtTime command on the track gain parameter. -/
structure GainCommand where
  target : Rat
  startAt : Rat
  timeConstant : Rat
deriving DecidableEq, Repr

/-- The gain update issued by the gain useEffect of ChannelStrip
(src/components/ChannelStrip.tsx lines 110-115). -/
def gainUpdateCommand (isAnyTrackSoloed : Bool) (tr : Track) (now : Rat) :
    GainCommand :=
  { target := if tr.isMuted || (isAnyTrackSoloed && !tr.isSoloed) then 0
      else tr.volume,
    startAt := now, timeConstant := RAMP_TIME }

/-- Concrete soloed track used by the C5 witness. -/
def sampleSoloTrack : Track :=
  { id := 1, name := "Audio 1", trackType := TrackType.audio,
    volume := 8/10, pan := 0, isMuted := false, isSoloed := true,
    effects := [], clips := [] }

/-- Concrete non-soloed track used by the C5 witness. -/
def sampleQuietTrack : Track :=
  { id := 2, name := "Audio 2", trackType := TrackType.audio,
    volume := 6/10, pan := 0, isMuted := false, isSoloed := false,
    effects := [], clips := [] }

/-- Concrete project with one soloed and one plain track. -/
def sampleSoloProject : ProjectState :=
  { tracks := [sampleSoloTrack, sampleQuietTrack], loopRegion := none }

/-- Concrete project holding only the plain track, nothing soloed. -/
def sampleNoSoloProject : ProjectState :=
  { tracks := [sampleQuietTrack], loopRegion := none }

/-- handleSelectClip (src/components/DAWContainer.tsx lines 430-436):
set isSelected on every clip of every track to whether its id matches
the selected id. -/
def selectClip (p : ProjectState) (idToSelect : String) : ProjectState :=
  { p with tracks := p.tracks.map (fun tr =>
      { tr with clips := tr.clips.map (fun c =>
          { c with isSelected := c.clipId == idToSelect }) }) }

/-- Number of selected clips across the whole project. -/
def selectedCount (p : ProjectState) : Nat :=
  (allClips p).countP (fun c => c.isSelected)

/-- Forget all selection flags (used to compare everything but the
selection mutation). -/
def clearSelection (p : ProjectState) : ProjectState :=
  { p with tracks := p.tracks.map (fun tr =>
      { tr with clips := tr.clips.map (fun c =>
          { c with isSelected := false }) }) }

/-- Concrete two-clip project used by the C6 witness. -/
def sampleSelectProject : ProjectState :=
  { tracks := [{ id := 1, name := "Audio 1",
                 trackType := TrackType.audio, volume := 8/10, pan := 0,
                 isMuted := false, isSoloed := false, effects := [],
                 clips := [{ clipId := "a", fileId := "f", name := "n",
                             startTime := 0, startOffset := 0,
                             duration := 1, sourceDuration := 1,
                             isSelected := true },
                           { clipId := "b", fileId := "f", name := "n",
                             startTime := 2, startOffset := 0,
                             duration := 1, sourceDuration := 1,
                             isSelected := false }] }],
    loopRegion := none }

/-- Truncation toward zero, the rounding of the JavaScript remainder
operator. -/
def jsTrunc (q : Rat) : Int :=
  if 0 ≤ q then ⌊q⌋ else ⌈q⌉

/-- The JavaScript remainder x % d on finite operands:
x - d * trunc(x / d). -/
def jsMod (x d : Rat) : Rat :=
  x - d * ((jsTrunc (x / d) : Int) : Rat)

/-- Song length constant (src/components/DAWContainer.tsx line 42). -/
def SONG_DURATION_SECONDS : Rat := 240

/-- The wrapped position computed by the loop branch of animationLoop
(src/components/DAWContainer.tsx lines 181-186). -/
def loopWrap (l : LoopRegion) (elapsed : Rat) : Rat :=
  l.start + jsMod (elapsed - l.stop) (l.stop - l.start)

/-- The playhead position published by one animationLoop step
(src/components/DAWContainer.tsx lines 177-196): wrap into the loop
region when looping past its end, otherwise return to zero past the song
end, otherwise the elapsed time itself. -/
def animationStepPosition (isLooping : Bool) (olr : Option LoopRegion)
    (elapsed : Rat) : Rat :=
  match olr with
  | some l =>
      if isLooping = true ∧ l.stop ≤ elapsed then loopWrap l elapsed
      else if SONG_DURATION_SECONDS ≤ elapsed then 0 else elapsed
  | none => if SONG_DURATION_SECONDS ≤ elapsed then 0 else elapsed

/-- One source.start command issued into the offline rendering context;
target records where the source node was connected. -/
structure ExportSchedule where
  clipId : String
  target : Node
  startAt : Rat
  offset : Rat
  duration : Rat
deriving DecidableEq, Repr

/-- The offline rendering context and the clip schedule handed to it. -/
structure ExportPlan where
  numberOfChannels : Nat
  length : Int
  sampleRate : Rat
  schedules : List ExportSchedule
deriving DecidableEq, Repr

/-- The nested reduce computing the project length
(src/components/DAWContainer.tsx line 355). -/
def totalDuration (p : ProjectState) : Rat :=
  p.tracks.foldl (fun m tr =>
    tr.clips.foldl (fun m2 c => max m2 (c.startTime + c.duration)) m) 0

/-- Export schedule of one track's clips; clips without a decoded buffer
are skipped, every source is connected straight to the destination
(src/components/DAWContainer.tsx lines 363-370). -/
def exportTrackSchedules (bufDur : String → Option Rat) (tr : Track) :
    List ExportSchedule :=
  tr.clips.filterMap (fun c =>
    match bufDur c.fileId with
    | none => none
    | some _ => some { clipId := c.clipId, target := Node.dest,
                       startAt := c.startTime, offset := c.startOffset,
                       duration := c.duration })

/-- handleExportAudio (src/components/DAWContainer.tsx lines 352-383), as
the offline context it sizes and the schedule commands it issues; none
models the early-return no-op. -/
def handleExportAudio (p : ProjectState) (sampleRate : Rat)
    (bufDur : String → Option Rat) : Option ExportPlan :=
  if p.tracks.length = 0 then none
  else if totalDuration p = 0 then none
  else some
    { numberOfChannels := 2,
      length := ⌈totalDuration p * sampleRate⌉,
      sampleRate := sampleRate,
      schedules := p.tracks.foldr (fun tr acc =>
        (if trackEligible (anySoloed p) tr then
            exportTrackSchedules bufDur tr
          else []) ++ acc) [] }

/-- Legacy inline clip shape stored directly on a track (the pre-clips
schema handled by the IndexedDB migration). -/
structure StoredInlineClip where
  fileId : String
  name : String
  startTime : Rat
  duration : Rat
deriving DecidableEq, Repr

/-- A stored track as the migration reads it: trackType may be missing,
the clip list may be missing, and a legacy single inline clip may be
present instead (src/services/IndexedDB.ts lines 81-97). -/
structure StoredTrack where
  id : Int
  name : String
  trackType : Option TrackType
  volume : Rat
  pan : Rat
  isMuted : Bool
  isSoloed : Bool
  effects : List Effect
  clips : Option (List AudioClip)
  audioClip : Option StoredInlineClip
deriving DecidableEq, Repr

/-- A stored project value: the very old bare track array, or the shaped
record with an optional loop region (src/services/IndexedDB.ts lines
73-79). -/
inductive StoredProject
  | bareTracks (tracks : List StoredTrack)
  | shaped (tracks : List StoredTrack) (loopRegion : Option LoopRegion)
deriving DecidableEq, Repr

/-- Clip list of a stored track after the clips/audioClip migration step
(src/services/IndexedDB.ts lines 84-93): a present clips list is kept; a
legacy inline clip becomes a one-element list with a fresh clip id,
startOffset 0 and sourceDuration equal to its duration; otherwise the
list is empty. -/
def migratedClips (fresh : String) (t : StoredTrack) : List AudioClip :=
  match t.clips, t.audioClip with
  | some cs, _ => cs
  | none, some a =>
      [{ clipId := fresh, fileId := a.fileId, name := a.name,
         startTime := a.startTime, startOffset := 0,
         duration := a.duration, sourceDuration := a.duration,
         isSelected := false }]
  | none, none => []

/-- Track migration (src/services/IndexedDB.ts lines 81-97): default the
track type to audio, migrate the clip shape, clear selection flags. -/
def migrateTrack (fresh : String) (t : StoredTrack) : Track :=
  { id := t.id, name := t.name,
    trackType := t.trackType.getD TrackType.audio,
    volume := t.volume, pan := t.pan,
    isMuted := t.isMuted, isSoloed := t.isSoloed,
    effects := t.effects,
    clips := (migratedClips fresh t).map (fun c =>
        { c with isSelected := false }) }

/-- Migrate the stored track list, drawing fresh clip ids by index. -/
def migrateTracks (fresh : Nat → String) :
    Nat → List StoredTrack → List Track
  | _, [] => []
  | n, t :: ts => migrateTrack (fresh n) t :: migrateTracks fresh (n+1) ts

/-- getProject (src/services/IndexedDB.ts lines 63-106): lift the very
old bare array to the shaped record with a null loop region, then
migrate every track. -/
def getProject (fresh : Nat → String) : StoredProject → ProjectState
  | .bareTracks ts =>
      { tracks := migrateTracks fresh 0 ts, loopRegion := none }
  | .shaped ts lr =>
      { tracks := migrateTracks fresh 0 ts, loopRegion := lr }

/-- The stored shape of a current track, as saveProject writes it
(src/services/IndexedDB.ts lines 48-61 store the record as-is). -/
def encodeTrack (tr : Track) : StoredTrack :=
  { id := tr.id, name := tr.name, trackType := some tr.trackType,
    volume := tr.volume, pan := tr.pan, isMuted := tr.isMuted,
    isSoloed := tr.isSoloed, effects := tr.effects,
    clips := some tr.clips, audioClip := none }

/-- The stored value produced by saving a project. -/
def toStored (p : ProjectState) : StoredProject :=
  .shaped (p.tracks.map encodeTrack) p.loopRegion

/-- The section-3 data-model constraints of a project: per clip the
numeric invariant and a nonnegative start, volume in [0,1], pan in
[-1,1], at most one selected clip, and a proper loop region. -/
def projectInvariant (eps : Rat) (p : ProjectState) : Prop :=
  (∀ tr, tr ∈ p.tracks → (0 ≤ tr.volume ∧ tr.volume ≤ 1) ∧
     (-1 ≤ tr.pan ∧ tr.pan ≤ 1) ∧
     ∀ c, c ∈ tr.clips → clipInvariant eps c ∧ 0 ≤ c.startTime) ∧
  selectedCount p ≤ 1 ∧
  (∀ lr, p.loopRegion = some lr → lr.start < lr.stop)

/-- Numeric well-formedness of a stored track: the section-3 constraints
on the fields the migration carries over unchanged. -/
def storedTrackValid (eps : Rat) (t : StoredTrack) : Prop :=
  (0 ≤ t.volume ∧ t.volume ≤ 1) ∧ (-1 ≤ t.pan ∧ t.pan ≤ 1) ∧
  (∀ cs, t.clips = some cs → ∀ c, c ∈ cs →
     clipInvariant eps c ∧ 0 ≤ c.startTime) ∧
  (∀ a, t.clips = none → t.audioClip = some a →
     0 < a.duration ∧ 0 ≤ a.startTime)

/-- Numeric well-formedness of a stored value. -/
def storedValid (eps : Rat) : StoredProject → Prop
  | .bareTracks ts => ∀ t, t ∈ ts → storedTrackValid eps t
  | .shaped ts lr => (∀ t, t ∈ ts → storedTrackValid eps t) ∧
      (∀ l, lr = some l → l.start < l.stop)

/-- Legacy stored track whose inline clip has duration 0. -/
def legacyBadTrack : StoredTrack :=
  { id := 1, name := "t", trackType := none, volume := 8/10, pan := 0,
    isMuted := false, isSoloed := false, effects := [], clips := none,
    audioClip := some { fileId := "f", name := "a", startTime := 0,
                        duration := 0 } }

/-- Legacy stored value built from that track. -/
def legacyBadStored : StoredProject := .bareTracks [legacyBadTrack]

/-- A well-formed legacy inline clip. -/
def legacyGoodInline : StoredInlineClip :=
  { fileId := "f", name := "a", startTime := 0, duration := 1 }

/-- Legacy stored track with a well-formed inline clip. -/
def legacyGoodTrack : StoredTrack :=
  { id := 1, name := "t", trackType := none, volume := 8/10, pan := 0,
    isMuted := false, isSoloed := false, effects := [], clips := none,
    audioClip := some legacyGoodInline }

/-- Legacy stored value built from that track. -/
def legacyGoodStored : StoredProject := .bareTracks [legacyGoodTrack]

/-- The loop region recomputed on every pointer move of a set-loop
session (src/components/DAWContainer.tsx lines 567-576). -/
def setLoopRegion (anchor current : Rat) : LoopRegion :=
  { start := min anchor current, stop := max anchor current }

/-- The project state published by that pointer move. -/
def publishLoopRegion (p : ProjectState) (anchor current : Rat) :
    ProjectState :=
  { p with loopRegion := some (setLoopRegion anchor current) }

/- Theorems. -/

/-- C1.  A trim-start edit with delta applies exactly the guarded update
of the source (new start, shrunken duration, advanced offset) and is a
no-op otherwise; a trim-end edit applies the guarded min-clamped
duration update and is a no-op otherwise; and both operations preserve
the section-3 clip invariant. -/
theorem trim_edits_preserve_clip_invariant
    (eps : Rat) (heps : 0 ≤ eps) (c : AudioClip) (delta : Rat)
    (h : clipInvariant eps c) :
    (let newStartTime := max 0 (c.startTime + delta)
     let newDuration := c.duration - (newStartTime - c.startTime)
     let newStartOffset := c.startOffset + (newStartTime - c.startTime)
     (0 < newDuration ∧ 0 ≤ newStartOffset →
        trimStart c delta =
          { c with startTime := newStartTime, duration := newDuration,
                   startOffset := newStartOffset }) ∧
     (¬ (0 < newDuration ∧ 0 ≤ newStartOffset) → trimStart c delta = c)) ∧
    (let newDuration := min (c.duration + delta)
        (c.sourceDuration - c.startOffset)
     (0 < newDuration → trimEnd c delta = { c with duration := newDuration }) ∧
     (¬ 0 < newDuration → trimEnd c delta = c)) ∧
    clipInvariant eps (trimStart c delta) ∧
    clipInvariant eps (trimEnd c delta) := by
  obtain ⟨h1, h2, h3⟩ := h
  refine ⟨⟨?_, ?_⟩, ⟨?_, ?_⟩, ?_, ?_⟩
  · intro hg
    simp only [trimStart, if_pos hg]
  · intro hg
    simp only [trimStart, if_neg hg]
  · intro hg
    simp only [trimEnd, if_pos hg]
  · intro hg
    simp only [trimEnd, if_neg hg]
  · unfold trimStart
    by_cases hg : 0 < c.duration - (max 0 (c.startTime + delta) - c.startTime) ∧
        0 ≤ c.startOffset + (max 0 (c.startTime + delta) - c.startTime)
    · rw [if_pos hg]
      exact ⟨hg.2, hg.1, by simp only; linarith⟩
    · rw [if_neg hg]
      exact ⟨h1, h2, h3⟩
  · unfold trimEnd
    by_cases hg : 0 < min (c.duration + delta) (c.sourceDuration - c.startOffset)
    · rw [if_pos hg]
      refine ⟨h1, hg, ?_⟩
      simp only
      have : min (c.duration + delta) (c.sourceDuration - c.startOffset) ≤
          c.sourceDuration - c.startOffset := min_le_right _ _
      linarith
    · rw [if_neg hg]
      exact ⟨h1, h2, h3⟩

/-- Witness for C1 at a concrete clip and delta. -/
theorem trim_edits_preserve_clip_invariant_witness :
    (0:Rat) ≤ 0 ∧ clipInvariant 0 sampleTrimClip ∧
    clipInvariant 0 (trimStart sampleTrimClip (1/2)) := by
  have hc : clipInvariant 0 sampleTrimClip := by
    unfold clipInvariant sampleTrimClip
    norm_num
  exact ⟨le_refl 0, hc,
    (trim_edits_preserve_clip_invariant 0 (le_refl 0) sampleTrimClip
      (1/2) hc).2.2.1⟩

/-- C2.  Splitting the selected clip at a playhead strictly inside it
replaces that clip in place by exactly two clips: the first keeps the id,
spans [startTime, t) and is selected; the second carries the fresh id,
spans [t, startTime + duration) with the advanced source offset and is
unselected; the two intervals concatenate to the original interval with
no gap or overlap.  A playhead outside the open interval leaves the
project unchanged. -/
theorem split_replaces_clip_exactly
    (p : ProjectState) (t : Rat) (fresh : String) (c : AudioClip) (tid : Int)
    (hsel : findSelected p.tracks = some (c, tid)) :
    (t ≤ c.startTime ∨ c.startTime + c.duration ≤ t →
       handleSplit p t fresh = p) ∧
    (c.startTime < t → t < c.startTime + c.duration →
      (handleSplit p t fresh).tracks =
        p.tracks.map (fun tr =>
          if tr.id = tid then
            splitTrack c.clipId (splitClip1 c t) (splitClip2 c t fresh) tr
          else tr) ∧
      (handleSplit p t fresh).loopRegion = p.loopRegion ∧
      (∀ tr : Track, ∀ i : Nat,
        tr.clips.findIdx? (fun x => x.clipId == c.clipId) = some i →
        (splitTrack c.clipId (splitClip1 c t) (splitClip2 c t fresh) tr).clips
          = tr.clips.take i ++ [splitClip1 c t, splitClip2 c t fresh] ++
              tr.clips.drop (i+1)) ∧
      (splitClip1 c t).clipId = c.clipId ∧
      (splitClip1 c t).startTime = c.startTime ∧
      (splitClip1 c t).duration = t - c.startTime ∧
      (splitClip1 c t).isSelected = true ∧
      (splitClip2 c t fresh).clipId = fresh ∧
      (splitClip2 c t fresh).startTime = t ∧
      (splitClip2 c t fresh).startOffset = c.startOffset + (t - c.startTime) ∧
      (splitClip2 c t fresh).duration = c.duration - (t - c.startTime) ∧
      (splitClip2 c t fresh).isSelected = false ∧
      0 < (splitClip1 c t).duration ∧
      0 < (splitClip2 c t fresh).duration ∧
      (splitClip1 c t).startTime + (splitClip1 c t).duration =
        (splitClip2 c t fresh).startTime ∧
      (splitClip2 c t fresh).startTime + (splitClip2 c t fresh).duration =
        c.startTime + c.duration) := by
  constructor
  · intro hg
    unfold handleSplit
    rw [hsel]
    simp only [if_pos hg]
  · intro h1 h2
    have hg : ¬ (t ≤ c.startTime ∨ c.startTime + c.duration ≤ t) := by
      push_neg
      exact ⟨h1, h2⟩
    have hmap : (fun tr : Track =>
        if tr.id ≠ tid then tr
        else splitTrack c.clipId (splitClip1 c t) (splitClip2 c t fresh) tr)
        = (fun tr : Track =>
        if tr.id = tid then
          splitTrack c.clipId (splitClip1 c t) (splitClip2 c t fresh) tr
        else tr) := by
      funext tr
      by_cases h : tr.id = tid <;> simp [h]
    refine ⟨?_, ?_, ?_, rfl, rfl, rfl, rfl, rfl, rfl, rfl, rfl, rfl,
      ?_, ?_, ?_, ?_⟩
    · unfold handleSplit
      rw [hsel]
      simp only [if_neg hg, hmap]
    · unfold handleSplit
      rw [hsel]
      simp only [if_neg hg]
    · intro tr i hidx
      unfold splitTrack
      rw [hidx]
    · simp only [splitClip1]
      linarith
    · simp only [splitClip2]
      linarith
    · simp only [splitClip1, splitClip2]
      ring
    · simp only [splitClip2]
      ring

/-- Witness for C2: splitting the sample project at playhead 3. -/
theorem split_replaces_clip_exactly_witness :
    findSelected sampleSplitProject.tracks = some (sampleSplitClip, 1) ∧
    sampleSplitClip.startTime < 3 ∧
    (3:Rat) < sampleSplitClip.startTime + sampleSplitClip.duration ∧
    (handleSplit sampleSplitProject 3 "b").tracks =
      sampleSplitProject.tracks.map (fun tr =>
        if tr.id = 1 then
          splitTrack sampleSplitClip.clipId (splitClip1 sampleSplitClip 3)
            (splitClip2 sampleSplitClip 3 "b") tr
        else tr) := by
  refine ⟨rfl, by norm_num [sampleSplitClip], by norm_num [sampleSplitClip],
    ?_⟩
  exact ((split_replaces_clip_exactly sampleSplitProject 3 "b"
      sampleSplitClip 1 rfl).2
    (by norm_num [sampleSplitClip]) (by norm_num [sampleSplitClip])).1

/-- Helper: an element contributed by a member track appears in the
track-fold of schedule lists. -/
theorem mem_foldr_append {β : Type} (f : Track → List β) :
    ∀ (ts : List Track) (tr : Track), tr ∈ ts → ∀ s, s ∈ f tr →
      s ∈ ts.foldr (fun tr2 acc => f tr2 ++ acc) [] := by
  intro ts
  induction ts with
  | nil => intro tr h; cases h
  | cons hd tl ih =>
    intro tr htr s hs
    simp only [List.foldr_cons, List.mem_append]
    rcases List.mem_cons.mp htr with he | hm
    · exact Or.inl (he ▸ hs)
    · exact Or.inr (ih tr hm s hs)

/-- C3.  An eligible track's clip with a decoded buffer is skipped when
the paused position is at or past the clip's end; otherwise handlePlay
issues exactly the command with playAt = deviceNow + max(0, startTime -
paused), the offset advanced and clamped to the source duration, and the
remaining duration, skipping the clip when that duration is not
positive; and seek(3) followed by play on a clip spanning [0,10) with
startOffset 0 schedules it with playOffset 3 and playDuration 7. -/
theorem play_schedules_clips
    (p : ProjectState) (paused deviceNow : Rat)
    (bufDur : String → Option Rat) (tr : Track) (c : AudioClip)
    (htr : tr ∈ p.tracks) (helig : trackEligible (anySoloed p) tr = true)
    (hc : c ∈ tr.clips) (hbuf : bufDur c.fileId = some c.sourceDuration) :
    (c.startTime + c.duration ≤ paused →
       scheduleClip paused deviceNow c.sourceDuration c = none) ∧
    (paused < c.startTime + c.duration →
      ((if c.startTime < paused then
          max 0 (c.duration - (paused - c.startTime))
        else c.duration) ≤ 0 →
         scheduleClip paused deviceNow c.sourceDuration c = none) ∧
      (0 < (if c.startTime < paused then
          max 0 (c.duration - (paused - c.startTime))
        else c.duration) →
         scheduleClip paused deviceNow c.sourceDuration c =
           some { clipId := c.clipId,
                  playAt := deviceNow + max 0 (c.startTime - paused),
                  playOffset := if c.startTime < paused then
                      min (c.startOffset + (paused - c.startTime))
                        c.sourceDuration
                    else c.startOffset,
                  playDuration := if c.startTime < paused then
                      max 0 (c.duration - (paused - c.startTime))
                    else c.duration })) ∧
    (∀ s, scheduleClip paused deviceNow c.sourceDuration c = some s →
       s ∈ handlePlay p paused deviceNow bufDur) ∧
    (∀ t0 : Rat, scheduleClip 3 t0 10 samplePlayClip =
       some { clipId := "a", playAt := t0, playOffset := 3,
              playDuration := 7 }) := by
  refine ⟨?_, ?_, ?_, ?_⟩
  · intro h
    simp only [scheduleClip, if_pos h]
  · intro h
    constructor
    · intro hpd
      simp only [scheduleClip, if_neg (not_le.mpr h), if_pos hpd]
    · intro hpd
      simp only [scheduleClip, if_neg (not_le.mpr h),
        if_neg (not_le.mpr hpd)]
  · intro s hs
    have hmem : s ∈ (if trackEligible (anySoloed p) tr then
        trackSchedules paused deviceNow bufDur tr else []) := by
      rw [helig]
      simp only [if_pos]
      refine List.mem_filterMap.mpr ⟨c, hc, ?_⟩
      rw [hbuf]
      exact hs
    exact mem_foldr_append _ p.tracks tr htr s hmem
  · intro t0
    simp only [scheduleClip, samplePlayClip]
    norm_num

/-- Witness for C3: playing the sample project from paused position 3
schedules the [0,10) clip at the current device time with offset 3 and
duration 7. -/
theorem play_schedules_clips_witness :
    samplePlayClip ∈ samplePlayTrack.clips ∧
    scheduleClip 3 0 10 samplePlayClip =
      some { clipId := "a", playAt := 0, playOffset := 3,
             playDuration := 7 } ∧
    ({ clipId := "a", playAt := 0, playOffset := 3,
       playDuration := 7 } : ScheduledSource) ∈
      handlePlay samplePlayProject 3 0 samplePlayBuffers := by
  have htr : samplePlayTrack ∈ samplePlayProject.tracks := by
    simp [samplePlayProject]
  have hc : samplePlayClip ∈ samplePlayTrack.clips := by
    simp [samplePlayTrack]
  have T := play_schedules_clips samplePlayProject 3 0 samplePlayBuffers
    samplePlayTrack samplePlayClip htr rfl hc rfl
  have h4 := T.2.2.2 0
  exact ⟨hc, h4, T.2.2.1 _ h4⟩

/-- The declared-order path always has at least its panner endpoint. -/
theorem chainNodes_ne_nil (es : List Effect) : chainNodes es ≠ [] := by
  cases es <;> simp [chainNodes]

/-- Key identity: folding the reversed effect list produces exactly the
edges of the declared-order path (in reverse creation order) and ends
with the path's head as the clip-entry node. -/
theorem effectFold_reverse_eq (es : List Effect) :
    effectFold es.reverse =
      ((consecEdges (chainNodes es)).reverse,
        (chainNodes es).headD Node.panner) := by
  induction es with
  | nil => rfl
  | cons e es ih =>
    obtain ⟨y, rest, hy⟩ : ∃ y rest, chainNodes es = y :: rest := by
      cases h : chainNodes es with
      | nil => exact absurd h (chainNodes_ne_nil es)
      | cons a l => exact ⟨a, l, rfl⟩
    have hstep : effectFold (es.reverse ++ [e]) =
        ((effectFold es.reverse).1 ++
           [(effectAudioNode e, (effectFold es.reverse).2)],
         effectAudioNode e) := by
      unfold effectFold
      rw [List.foldl_append]
      rfl
    have hcn : chainNodes (e :: es) = effectAudioNode e :: chainNodes es := by
      simp [chainNodes]
    rw [List.reverse_cons, hstep, ih, hcn, hy]
    simp [consecEdges]

/-- Consecutive elements of a path are among its edges. -/
theorem mem_consecEdges (l : List Node) :
    ∀ i (h : i + 1 < l.length),
      (l.get ⟨i, Nat.lt_of_succ_lt h⟩, l.get ⟨i+1, h⟩) ∈ consecEdges l := by
  induction l with
  | nil => intro i h; simp at h
  | cons a l ih =>
    intro i h
    cases l with
    | nil => simp at h
    | cons b l2 =>
      cases i with
      | zero => simp [consecEdges]
      | succ j =>
        have hj : j + 1 < (b :: l2).length := by simpa using h
        have hm := ih j hj
        simp only [consecEdges, List.get_cons_succ]
        exact List.mem_cons_of_mem _ hm

/-- C4.  The channel graph wires, although built by iterating the effect
list in reverse declared order, exactly the declared-order path: every
clip source feeds the node of effect 0 (or the panner when there are no
effects), every effect's node feeds the node of the next declared
effect, the last effect's node feeds the panner, and then panner feeds
gain which feeds the destination; so the signal-processing order of
effects equals the declared list order, index 0 first. -/
theorem effect_chain_declared_order (tr : Track) (hasMeter : Bool) :
    buildChain tr hasMeter =
      (consecEdges (chainNodes tr.effects)).reverse ++
      tr.clips.map (fun c =>
        (Node.source c.clipId, (chainNodes tr.effects).headD Node.panner)) ++
      [(Node.panner, Node.gain), (Node.gain, Node.dest)] ++
      (if hasMeter then [(Node.gain, Node.meter)] else []) ∧
    (∀ c, c ∈ tr.clips →
      (Node.source c.clipId, (chainNodes tr.effects).headD Node.panner) ∈
        buildChain tr hasMeter) ∧
    (∀ i, ∀ h : i + 1 < (chainNodes tr.effects).length,
      ((chainNodes tr.effects).get ⟨i, Nat.lt_of_succ_lt h⟩,
       (chainNodes tr.effects).get ⟨i+1, h⟩) ∈ buildChain tr hasMeter) ∧
    (Node.panner, Node.gain) ∈ buildChain tr hasMeter ∧
    (Node.gain, Node.dest) ∈ buildChain tr hasMeter := by
  have heq : buildChain tr hasMeter =
      (consecEdges (chainNodes tr.effects)).reverse ++
      tr.clips.map (fun c =>
        (Node.source c.clipId, (chainNodes tr.effects).headD Node.panner)) ++
      [(Node.panner, Node.gain), (Node.gain, Node.dest)] ++
      (if hasMeter then [(Node.gain, Node.meter)] else []) := by
    unfold buildChain
    rw [effectFold_reverse_eq]
  refine ⟨heq, ?_, ?_, ?_, ?_⟩
  · intro c hc
    rw [heq]
    simp only [List.append_assoc, List.mem_append]
    exact Or.inr (Or.inl (List.mem_map.mpr ⟨c, hc, rfl⟩))
  · intro i h
    rw [heq]
    simp only [List.append_assoc, List.mem_append, List.mem_reverse]
    exact Or.inl (mem_consecEdges _ i h)
  · rw [heq]
    simp
  · rw [heq]
    simp

/-- Witness for C4: on a track with declared effects [e0, e1], the clip
source feeds e0, e0 feeds e1, e1 feeds the panner, and panner feeds gain
feeds destination. -/
theorem effect_chain_declared_order_witness :
    (Node.source "a", Node.eqNode "e0") ∈ buildChain sampleFxTrack true ∧
    (Node.eqNode "e0", Node.compressorNode "e1") ∈
      buildChain sampleFxTrack true ∧
    (Node.compressorNode "e1", Node.panner) ∈ buildChain sampleFxTrack true ∧
    (Node.panner, Node.gain) ∈ buildChain sampleFxTrack true ∧
    (Node.gain, Node.dest) ∈ buildChain sampleFxTrack true := by
  have T := effect_chain_declared_order sampleFxTrack true
  have h0 := T.2.1 samplePlayClip (by simp [sampleFxTrack])
  have h1 := T.2.2.1 0 (by simp [sampleFxTrack, chainNodes])
  have h2 := T.2.2.1 1 (by simp [sampleFxTrack, chainNodes])
  refine ⟨?_, ?_, ?_, T.2.2.2.1, T.2.2.2.2⟩
  · simpa [sampleFxTrack, samplePlayClip, chainNodes, effectAudioNode]
      using h0
  · simpa [sampleFxTrack, chainNodes, effectAudioNode] using h1
  · simpa [sampleFxTrack, chainNodes, effectAudioNode] using h2

/-- C5.  The effective gain applied to a track is 0 when the track is
muted or when some track of the project is soloed and this one is not,
and is the track's volume otherwise; and the target is applied through a
positive smoothing time constant, not an instantaneous jump. -/
theorem effective_gain_mute_solo (p : ProjectState) (tr : Track)
    (now : Rat) :
    ((tr.isMuted = true ∨ (anySoloed p = true ∧ tr.isSoloed = false)) →
      (gainUpdateCommand (anySoloed p) tr now).target = 0) ∧
    (tr.isMuted = false → (anySoloed p = false ∨ tr.isSoloed = true) →
      (gainUpdateCommand (anySoloed p) tr now).target = tr.volume) ∧
    (anySoloed p = true ↔ ∃ t, t ∈ p.tracks ∧ t.isSoloed = true) ∧
    (gainUpdateCommand (anySoloed p) tr now).timeConstant = RAMP_TIME ∧
    0 < RAMP_TIME := by
  refine ⟨?_, ?_, ?_, rfl, by norm_num [RAMP_TIME]⟩
  · intro h
    rcases h with h | ⟨h1, h2⟩
    · simp [gainUpdateCommand, h]
    · simp [gainUpdateCommand, h1, h2]
  · intro h1 h2
    rcases h2 with h2 | h2
    · simp [gainUpdateCommand, h1, h2]
    · simp [gainUpdateCommand, h1, h2]
  · simp [anySoloed, List.any_eq_true]

/-- Witness for C5: with another track soloed, the unmuted non-soloed
track gets effective gain 0; with no track soloed it gets its volume. -/
theorem effective_gain_mute_solo_witness :
    (sampleQuietTrack.isMuted = true ∨
      (anySoloed sampleSoloProject = true ∧
       sampleQuietTrack.isSoloed = false)) ∧
    (gainUpdateCommand (anySoloed sampleSoloProject) sampleQuietTrack
      0).target = 0 ∧
    (gainUpdateCommand (anySoloed sampleNoSoloProject) sampleQuietTrack
      0).target = sampleQuietTrack.volume := by
  have hsolo : anySoloed sampleSoloProject = true := by
    simp [anySoloed, sampleSoloProject, sampleSoloTrack]
  have hnone : anySoloed sampleNoSoloProject = false := by
    simp [anySoloed, sampleNoSoloProject, sampleQuietTrack]
  refine ⟨Or.inr ⟨hsolo, rfl⟩, ?_, ?_⟩
  · exact (effective_gain_mute_solo sampleSoloProject sampleQuietTrack
      0).1 (Or.inr ⟨hsolo, rfl⟩)
  · exact (effective_gain_mute_solo sampleNoSoloProject sampleQuietTrack
      0).2.1 rfl (Or.inl hnone)

/-- Helper: re-flagging selection and then clearing it is the same as
just clearing it, clip-list level. -/
theorem map_clear_after (sel : AudioClip → Bool) (cs : List AudioClip) :
    (cs.map (fun c => { c with isSelected := sel c })).map
        (fun c => { c with isSelected := false }) =
      cs.map (fun c => { c with isSelected := false }) := by
  induction cs with
  | nil => rfl
  | cons c cs ih => simp [ih]

/-- Helper: re-flagging selection and then clearing it is the same as
just clearing it, track-list level. -/
theorem map_clearTrack_after (id : String) (ts : List Track) :
    (ts.map (fun tr : Track =>
        { tr with clips := tr.clips.map (fun c : AudioClip =>
            { c with isSelected := c.clipId == id }) })).map
      (fun tr : Track =>
        { tr with clips := tr.clips.map (fun c : AudioClip =>
            { c with isSelected := false }) }) =
    ts.map (fun tr : Track =>
        { tr with clips := tr.clips.map (fun c : AudioClip =>
            { c with isSelected := false }) }) := by
  induction ts with
  | nil => rfl
  | cons tr ts ih => simp [map_clear_after, ih]

/-- Helper: mapping every clip of every track commutes with collecting
all clips. -/
theorem foldr_clips_map (f : AudioClip → AudioClip) :
    ∀ ts : List Track,
      ((ts.map (fun tr => { tr with clips := tr.clips.map f })).foldr
          (fun tr acc => tr.clips ++ acc) [])
        = ((ts.foldr (fun tr acc => tr.clips ++ acc) []).map f) := by
  intro ts
  induction ts with
  | nil => rfl
  | cons tr ts ih => simp [ih]

/-- Helper: in a clip list with pairwise distinct ids, the number of
clips carrying a given id is 1 when present and 0 otherwise. -/
theorem countP_clipId_unique (id : String) :
    ∀ l : List AudioClip, (l.map (fun c => c.clipId)).Nodup →
      l.countP (fun c => c.clipId == id) =
        if l.any (fun c => c.clipId == id) then 1 else 0 := by
  intro l
  induction l with
  | nil => intro _; rfl
  | cons c l ih =>
    intro h
    have hnd : (∀ x ∈ l, ¬ x.clipId = c.clipId) ∧
        (l.map (fun x => x.clipId)).Nodup := by simpa using h
    by_cases hc : c.clipId = id
    · have hzero : l.countP (fun x => x.clipId == id) = 0 := by
        apply List.countP_eq_zero.mpr
        intro x hx hbeq
        have hxe : x.clipId = id := by simpa using hbeq
        exact hnd.1 x hx (by rw [hxe, hc])
      simp only [List.countP_cons, List.any_cons, hzero, hc,
        beq_self_eq_true, if_true, Bool.true_or, zero_add, if_pos]
    · have hfalse : (c.clipId == id) = false := by simpa using hc
      simp only [List.countP_cons, List.any_cons, hfalse, Bool.false_or,
        Bool.false_eq_true, if_false, add_zero]
      exact ih hnd.2

/-- C6.  In a project whose clip ids are pairwise distinct, selectClip
leaves exactly one clip selected when the id occurs in the project and
zero otherwise, and changes nothing else: forgetting selection flags,
the project is unchanged, and the loop region is untouched. -/
theorem selectClip_exclusive (p : ProjectState) (id : String)
    (h : ((allClips p).map (fun c => c.clipId)).Nodup) :
    selectedCount (selectClip p id) =
      (if (allClips p).any (fun c => c.clipId == id) then 1 else 0) ∧
    clearSelection (selectClip p id) = clearSelection p ∧
    (selectClip p id).loopRegion = p.loopRegion := by
  refine ⟨?_, ?_, rfl⟩
  · unfold selectedCount selectClip allClips
    rw [foldr_clips_map]
    rw [List.countP_map]
    exact countP_clipId_unique id _ (by exact h)
  · unfold clearSelection selectClip
    simp only [map_clearTrack_after]

/-- Witness for C6: selecting clip b in the two-clip sample project
leaves exactly one clip selected. -/
theorem selectClip_exclusive_witness :
    ((allClips sampleSelectProject).map (fun c => c.clipId)).Nodup ∧
    selectedCount (selectClip sampleSelectProject "b") = 1 := by
  have h : ((allClips sampleSelectProject).map
      (fun c => c.clipId)).Nodup := by
    simp [allClips, sampleSelectProject]
  refine ⟨h, ?_⟩
  have := (selectClip_exclusive sampleSelectProject "b" h).1
  rw [this]
  simp [allClips, sampleSelectProject]

/-- C7.  While looping with a proper loop region, once elapsed reaches
or passes the region end the next published position is
start + ((elapsed - end) mod (end - start)), the mod being the standard
floor remainder; in particular that position lands inside
[start, start + (end - start)). -/
theorem loop_wraparound (l : LoopRegion) (elapsed : Rat)
    (h1 : l.start < l.stop) (h2 : l.stop ≤ elapsed) :
    animationStepPosition true (some l) elapsed =
      l.start + ((elapsed - l.stop) - (l.stop - l.start) *
        ((⌊(elapsed - l.stop) / (l.stop - l.start)⌋ : Int) : Rat)) ∧
    0 ≤ animationStepPosition true (some l) elapsed - l.start ∧
    animationStepPosition true (some l) elapsed - l.start <
      l.stop - l.start := by
  have hd : (0:Rat) < l.stop - l.start := by linarith
  have hx : (0:Rat) ≤ elapsed - l.stop := by linarith
  have hq : (0:Rat) ≤ (elapsed - l.stop) / (l.stop - l.start) :=
    div_nonneg hx (le_of_lt hd)
  have heq : animationStepPosition true (some l) elapsed =
      l.start + ((elapsed - l.stop) - (l.stop - l.start) *
        ((⌊(elapsed - l.stop) / (l.stop - l.start)⌋ : Int) : Rat)) := by
    simp only [animationStepPosition]
    rw [if_pos (show True ∧ l.stop ≤ elapsed from ⟨trivial, h2⟩)]
    unfold loopWrap jsMod jsTrunc
    rw [if_pos hq]
  have hfl : ((⌊(elapsed - l.stop) / (l.stop - l.start)⌋ : Int) : Rat) ≤
      (elapsed - l.stop) / (l.stop - l.start) := Int.floor_le _
  have hfu : (elapsed - l.stop) / (l.stop - l.start) <
      ((⌊(elapsed - l.stop) / (l.stop - l.start)⌋ : Int) : Rat) + 1 :=
    Int.lt_floor_add_one _
  have hcancel : (l.stop - l.start) *
      ((elapsed - l.stop) / (l.stop - l.start)) = elapsed - l.stop := by
    field_simp
  refine ⟨heq, ?_, ?_⟩
  · rw [heq]
    have := mul_le_mul_of_nonneg_left hfl (le_of_lt hd)
    rw [hcancel] at this
    linarith
  · rw [heq]
    have := mul_lt_mul_of_pos_left hfu hd
    rw [mul_add, hcancel, mul_one] at this
    linarith

/-- Witness for C7: with loop region set to 2..5 and elapsed hitting
5.0, the next published position is 2.0. -/
theorem loop_wraparound_witness :
    (2:Rat) < 5 ∧ (5:Rat) ≤ 5 ∧
    animationStepPosition true (some { start := 2, stop := 5 }) 5 = 2 := by
  refine ⟨by norm_num, le_refl 5, ?_⟩
  have h := (loop_wraparound { start := 2, stop := 5 } 5 (by norm_num)
    (le_refl 5)).1
  rw [h]
  norm_num

/-- Helper: the running maximum never drops below its seed. -/
theorem le_clipFold : ∀ (cs : List AudioClip) (m : Rat),
    m ≤ cs.foldl (fun m2 c => max m2 (c.startTime + c.duration)) m := by
  intro cs
  induction cs with
  | nil => intro m; exact le_refl m
  | cons c cs ih =>
    intro m
    exact le_trans (le_max_left m (c.startTime + c.duration)) (ih _)

/-- Helper: the running maximum dominates every listed clip end. -/
theorem mem_le_clipFold : ∀ (cs : List AudioClip) (m : Rat) (c : AudioClip),
    c ∈ cs → c.startTime + c.duration ≤
      cs.foldl (fun m2 x => max m2 (x.startTime + x.duration)) m := by
  intro cs
  induction cs with
  | nil => intro m c h; cases h
  | cons a cs ih =>
    intro m c h
    rcases List.mem_cons.mp h with he | hm
    · subst he
      exact le_trans (le_max_right m (c.startTime + c.duration))
        (le_clipFold cs _)
    · exact ih _ c hm

/-- Helper: the running maximum is the seed or some listed clip end. -/
theorem clipFold_cases : ∀ (cs : List AudioClip) (m : Rat),
    cs.foldl (fun m2 c => max m2 (c.startTime + c.duration)) m = m ∨
      ∃ c, c ∈ cs ∧
        cs.foldl (fun m2 x => max m2 (x.startTime + x.duration)) m =
          c.startTime + c.duration := by
  intro cs
  induction cs with
  | nil => intro m; exact Or.inl rfl
  | cons a cs ih =>
    intro m
    rcases ih (max m (a.startTime + a.duration)) with h | ⟨c, hc, he⟩
    · rcases max_choice m (a.startTime + a.duration) with hm | hm
      · exact Or.inl (by rw [List.foldl_cons, h, hm])
      · exact Or.inr ⟨a, List.mem_cons_self a cs,
          by rw [List.foldl_cons, h, hm]⟩
    · exact Or.inr ⟨c, List.mem_cons_of_mem a hc,
        by rw [List.foldl_cons, he]⟩

/-- Helper: the nested track/clip reduce equals the reduce over all the
project's clips. -/
theorem trackFold_eq_clipFold : ∀ (ts : List Track) (m : Rat),
    ts.foldl (fun m0 tr => tr.clips.foldl
        (fun m2 c => max m2 (c.startTime + c.duration)) m0) m
      = (ts.foldr (fun tr acc => tr.clips ++ acc) []).foldl
          (fun m2 c => max m2 (c.startTime + c.duration)) m := by
  intro ts
  induction ts with
  | nil => intro m; rfl
  | cons tr ts ih =>
    intro m
    simp only [List.foldl_cons, List.foldr_cons, List.foldl_append]
    exact ih _

/-- Helper: totalDuration is the clip-end maximum over all clips. -/
theorem totalDuration_eq_allClips (p : ProjectState) :
    totalDuration p = (allClips p).foldl
      (fun m2 c => max m2 (c.startTime + c.duration)) 0 := by
  unfold totalDuration allClips
  exact trackFold_eq_clipFold p.tracks 0

/-- Helper: every export schedule targets the destination node. -/
theorem exportTrackSchedules_target (bufDur : String → Option Rat)
    (tr : Track) (s : ExportSchedule)
    (hs : s ∈ exportTrackSchedules bufDur tr) : s.target = Node.dest := by
  obtain ⟨c, _, hf⟩ := List.mem_filterMap.mp hs
  cases hb : bufDur c.fileId with
  | none => rw [hb] at hf; cases hf
  | some d => rw [hb] at hf; cases hf; rfl

/-- Helper: every element of the export fold targets the destination. -/
theorem exportFold_target (bufDur : String → Option Rat) (b : Bool) :
    ∀ (ts : List Track) (s : ExportSchedule),
      s ∈ ts.foldr (fun tr acc =>
          (if trackEligible b tr then exportTrackSchedules bufDur tr
            else []) ++ acc) [] →
      s.target = Node.dest := by
  intro ts
  induction ts with
  | nil => intro s hs; cases hs
  | cons tr ts ih =>
    intro s hs
    rw [List.foldr_cons] at hs
    rcases List.mem_append.mp hs with h | h
    · by_cases he : trackEligible b tr = true
      · rw [if_pos he] at h
        exact exportTrackSchedules_target bufDur tr s h
      · rw [if_neg he] at h
        cases h
    · exact ih s h

/-- C8.  Export computes totalDuration as the maximum clip end over all
clips, is a no-op when that is zero, and otherwise builds an offline
context sized (2, ceil(totalDuration * sampleRate), sampleRate) and
schedules every buffered clip of every eligible track at its absolute
start with its offset and duration, every source connected directly to
the destination (so per-track effects, gain and pan are bypassed). -/
theorem export_schedules (p : ProjectState) (sampleRate : Rat)
    (bufDur : String → Option Rat) :
    (∀ c, c ∈ allClips p →
       c.startTime + c.duration ≤ totalDuration p) ∧
    (totalDuration p = 0 ∨ ∃ c, c ∈ allClips p ∧
       totalDuration p = c.startTime + c.duration) ∧
    (totalDuration p = 0 → handleExportAudio p sampleRate bufDur = none) ∧
    (totalDuration p ≠ 0 →
      ∃ plan, handleExportAudio p sampleRate bufDur = some plan ∧
        plan.numberOfChannels = 2 ∧
        plan.length = ⌈totalDuration p * sampleRate⌉ ∧
        plan.sampleRate = sampleRate ∧
        (∀ tr, tr ∈ p.tracks → trackEligible (anySoloed p) tr = true →
          ∀ c, c ∈ tr.clips → ∀ d, bufDur c.fileId = some d →
            ({ clipId := c.clipId, target := Node.dest,
               startAt := c.startTime, offset := c.startOffset,
               duration := c.duration } : ExportSchedule) ∈
              plan.schedules) ∧
        (∀ s, s ∈ plan.schedules → s.target = Node.dest)) := by
  refine ⟨?_, ?_, ?_, ?_⟩
  · intro c hc
    rw [totalDuration_eq_allClips]
    exact mem_le_clipFold (allClips p) 0 c hc
  · rw [totalDuration_eq_allClips]
    exact clipFold_cases (allClips p) 0
  · intro h0
    unfold handleExportAudio
    by_cases hl : p.tracks.length = 0
    · rw [if_pos hl]
    · rw [if_neg hl, if_pos h0]
  · intro h0
    have hl : ¬ p.tracks.length = 0 := by
      intro hlen
      apply h0
      have hnil : p.tracks = [] := List.length_eq_zero.mp hlen
      unfold totalDuration
      rw [hnil]
      rfl
    refine ⟨{ numberOfChannels := 2,
              length := ⌈totalDuration p * sampleRate⌉,
              sampleRate := sampleRate,
              schedules := p.tracks.foldr (fun tr acc =>
                (if trackEligible (anySoloed p) tr then
                    exportTrackSchedules bufDur tr
                  else []) ++ acc) [] },
      ?_, rfl, rfl, rfl, ?_, ?_⟩
    · unfold handleExportAudio
      rw [if_neg hl, if_neg h0]
    · intro tr htr he c hc d hd
      apply mem_foldr_append _ p.tracks tr htr
      rw [he]
      simp only [if_pos]
      refine List.mem_filterMap.mpr ⟨c, hc, ?_⟩
      rw [hd]
    · intro s hs
      exact exportFold_target bufDur (anySoloed p) p.tracks s hs

/-- Witness for C8: exporting the one-clip sample project produces a
plan with the stated context size and the clip scheduled at 0 with
offset 0 and duration 10, wired to the destination. -/
theorem export_schedules_witness :
    totalDuration samplePlayProject ≠ 0 ∧
    ∃ plan, handleExportAudio samplePlayProject 48000 samplePlayBuffers =
        some plan ∧
      plan.numberOfChannels = 2 ∧
      plan.length = ⌈totalDuration samplePlayProject * 48000⌉ ∧
      plan.sampleRate = 48000 ∧
      ({ clipId := "a", target := Node.dest, startAt := 0, offset := 0,
         duration := 10 } : ExportSchedule) ∈ plan.schedules := by
  have htd : totalDuration samplePlayProject = 10 := by
    simp [totalDuration, samplePlayProject, samplePlayTrack,
      samplePlayClip]
  have hne : totalDuration samplePlayProject ≠ 0 := by
    rw [htd]
    norm_num
  obtain ⟨plan, h1, h2, h3, h4, h5, h6⟩ :=
    (export_schedules samplePlayProject 48000 samplePlayBuffers).2.2.2 hne
  refine ⟨hne, plan, h1, h2, h3, h4, ?_⟩
  have hm := h5 samplePlayTrack (by simp [samplePlayProject]) rfl
    samplePlayClip (by simp [samplePlayTrack]) 10 rfl
  simpa [samplePlayClip] using hm

/-- Helper: membership in the collected clip list of a track fold. -/
theorem mem_clipsFold (ts : List Track) (c : AudioClip) :
    c ∈ ts.foldr (fun tr acc => tr.clips ++ acc) [] ↔
      ∃ tr, tr ∈ ts ∧ c ∈ tr.clips := by
  induction ts with
  | nil => simp
  | cons tr ts ih =>
    simp only [List.foldr_cons, List.mem_append, ih, List.mem_cons]
    constructor
    · rintro (h | ⟨tr2, h2, hc⟩)
      · exact ⟨tr, Or.inl rfl, h⟩
      · exact ⟨tr2, Or.inr h2, hc⟩
    · rintro ⟨tr2, (rfl | h2), hc⟩
      · exact Or.inl hc
      · exact Or.inr ⟨tr2, h2, hc⟩

/-- Helper: every clip of a migrated track is unselected. -/
theorem migrateTrack_clips_unselected (fresh : String) (t : StoredTrack) :
    ∀ c, c ∈ (migrateTrack fresh t).clips → c.isSelected = false := by
  intro c hc
  obtain ⟨c0, _, rfl⟩ := List.mem_map.mp hc
  rfl

/-- Helper: every track of a migrated list is the migration of some
stored track. -/
theorem mem_migrateTracks (fresh : Nat → String) :
    ∀ (ts : List StoredTrack) (n : Nat) (tr : Track),
      tr ∈ migrateTracks fresh n ts →
      ∃ k t, t ∈ ts ∧ tr = migrateTrack (fresh k) t := by
  intro ts
  induction ts with
  | nil => intro n tr h; cases h
  | cons t ts ih =>
    intro n tr h
    rcases List.mem_cons.mp h with he | hm
    · exact ⟨n, t, List.mem_cons_self t ts, he⟩
    · obtain ⟨k, t2, ht2, he2⟩ := ih (n+1) tr hm
      exact ⟨k, t2, List.mem_cons_of_mem t ht2, he2⟩

/-- Helper: loading always clears every selection flag. -/
theorem getProject_selection_cleared (fresh : Nat → String)
    (sp : StoredProject) : selectedCount (getProject fresh sp) = 0 := by
  unfold selectedCount allClips
  apply List.countP_eq_zero.mpr
  intro c hc
  obtain ⟨tr, htr, hctr⟩ :=
    (mem_clipsFold (getProject fresh sp).tracks c).mp hc
  have hmig : ∃ k t, t ∈ (match sp with
      | .bareTracks ts => ts
      | .shaped ts _ => ts) ∧ tr = migrateTrack (fresh k) t := by
    cases sp with
    | bareTracks ts => exact mem_migrateTracks fresh ts 0 tr htr
    | shaped ts lr => exact mem_migrateTracks fresh ts 0 tr htr
  obtain ⟨k, t, _, rfl⟩ := hmig
  have hsel := migrateTrack_clips_unselected (fresh k) t c hctr
  simp [hsel]

/-- Helper: migrating the saved shape of a track list is clearing its
selection flags. -/
theorem migrateTracks_toStored (fresh : Nat → String) :
    ∀ (ts : List Track) (n : Nat),
      migrateTracks fresh n (ts.map encodeTrack) =
        ts.map (fun tr : Track =>
          { tr with clips := tr.clips.map (fun c : AudioClip =>
              { c with isSelected := false }) }) := by
  intro ts
  induction ts with
  | nil => intro n; rfl
  | cons tr ts ih =>
    intro n
    simp only [List.map_cons, migrateTracks]
    rw [ih]
    rfl

/-- Helper: loading what was saved is exactly clearing the selection. -/
theorem getProject_toStored (fresh : Nat → String) (p : ProjectState) :
    getProject fresh (toStored p) = clearSelection p := by
  unfold toStored clearSelection
  simp only [getProject]
  rw [migrateTracks_toStored]

/-- Helper: a validly stored value loads into a project satisfying the
section-3 constraints. -/
theorem getProject_valid (eps : Rat) (heps : 0 ≤ eps)
    (fresh : Nat → String) (sp : StoredProject)
    (hv : storedValid eps sp) :
    projectInvariant eps (getProject fresh sp) := by
  have htracksValid : ∀ t, t ∈ (match sp with
      | .bareTracks ts => ts
      | .shaped ts _ => ts) → storedTrackValid eps t := by
    cases sp with
    | bareTracks ts => exact hv
    | shaped ts lr => exact hv.1
  refine ⟨?_, ?_, ?_⟩
  · intro tr htr
    have hmig : ∃ k t, t ∈ (match sp with
        | .bareTracks ts => ts
        | .shaped ts _ => ts) ∧ tr = migrateTrack (fresh k) t := by
      cases sp with
      | bareTracks ts => exact mem_migrateTracks fresh ts 0 tr htr
      | shaped ts lr => exact mem_migrateTracks fresh ts 0 tr htr
    obtain ⟨k, t, ht, rfl⟩ := hmig
    obtain ⟨hvol, hpan, hcs, hinline⟩ := htracksValid t ht
    refine ⟨hvol, hpan, ?_⟩
    intro c hc
    obtain ⟨c0, hc0, rfl⟩ := List.mem_map.mp hc
    revert hc0
    unfold migratedClips
    cases hclips : t.clips with
    | some cs =>
      intro hc0
      exact hcs cs hclips c0 hc0
    | none =>
      cases haudio : t.audioClip with
      | some a =>
        intro hc0
        have hc0e := List.mem_singleton.mp hc0
        subst hc0e
        obtain ⟨hd, hst⟩ := hinline a hclips haudio
        exact ⟨⟨le_refl 0, hd, by simpa using heps⟩, hst⟩
      | none =>
        intro hc0
        cases hc0
  · rw [getProject_selection_cleared]
    norm_num
  · intro lr hlr
    cases sp with
    | bareTracks ts => simp [getProject] at hlr
    | shaped ts lr0 =>
      have : lr0 = some lr := by simpa [getProject] using hlr
      exact hv.2 lr this

/-- Helper: clearing the selection preserves the section-3 constraints. -/
theorem projectInvariant_clearSelection (eps : Rat) (p : ProjectState)
    (h : projectInvariant eps p) :
    projectInvariant eps (clearSelection p) := by
  obtain ⟨htracks, _, hloop⟩ := h
  refine ⟨?_, ?_, ?_⟩
  · intro tr htr
    obtain ⟨tr0, htr0, rfl⟩ := List.mem_map.mp htr
    obtain ⟨hvol, hpan, hclips⟩ := htracks tr0 htr0
    refine ⟨hvol, hpan, ?_⟩
    intro c hc
    obtain ⟨c0, hc0, rfl⟩ := List.mem_map.mp hc
    exact hclips c0 hc0
  · unfold selectedCount clearSelection allClips
    rw [foldr_clips_map, List.countP_map]
    have h0 : ∀ (l : List AudioClip),
        List.countP ((fun c : AudioClip => c.isSelected) ∘
          (fun c : AudioClip => { c with isSelected := false })) l = 0 := by
      intro l
      apply List.countP_eq_zero.mpr
      intro a _
      simp [Function.comp]
    rw [h0]
    norm_num
  · intro lr hlr
    exact hloop lr hlr

/-- C9 (amended).  Loading any stored value yields a project in the
current shape with every selection flag cleared; a missing trackType
defaults to audio; a legacy inline clip migrates to a one-element clips
list with startOffset 0 and sourceDuration equal to its duration; when
the stored value's numeric fields satisfy the section-3 constraints the
loaded project satisfies the section-3 invariants; and loading a saved
project yields exactly the saved project with its selection cleared,
which preserves the section-3 invariants. -/
theorem load_migrates_and_round_trips (eps : Rat) (heps : 0 ≤ eps)
    (fresh : Nat → String) (sp : StoredProject) (p : ProjectState) :
    selectedCount (getProject fresh sp) = 0 ∧
    (∀ f t, (migrateTrack f t).trackType =
       t.trackType.getD TrackType.audio) ∧
    (∀ f t a, t.clips = none → t.audioClip = some a →
       (migrateTrack f t).clips =
         [{ clipId := f, fileId := a.fileId, name := a.name,
            startTime := a.startTime, startOffset := 0,
            duration := a.duration, sourceDuration := a.duration,
            isSelected := false }]) ∧
    (∀ f t cs, t.clips = some cs →
       (migrateTrack f t).clips = cs.map (fun c : AudioClip =>
         { c with isSelected := false })) ∧
    (storedValid eps sp → projectInvariant eps (getProject fresh sp)) ∧
    getProject fresh (toStored p) = clearSelection p ∧
    (projectInvariant eps p →
       projectInvariant eps (getProject fresh (toStored p))) := by
  refine ⟨getProject_selection_cleared fresh sp, ?_, ?_, ?_,
    getProject_valid eps heps fresh sp, getProject_toStored fresh p, ?_⟩
  · intro f t
    rfl
  · intro f t a hc ha
    simp [migrateTrack, migratedClips, hc, ha]
  · intro f t cs hc
    simp [migrateTrack, migratedClips, hc]
  · intro hp
    rw [getProject_toStored]
    exact projectInvariant_clearSelection eps p hp

/-- Counterexample to C9 as stated: this stored value loads into a
project holding a clip of duration 0, violating the section-3 invariant
duration > 0, so not every stored value loads into a project satisfying
the section-3 invariants. -/
theorem load_invariant_counterexample :
    ∃ tr, tr ∈ (getProject (fun _ => "m") legacyBadStored).tracks ∧
      ∃ c, c ∈ tr.clips ∧ c.duration = 0 ∧ ¬ clipInvariant 0 c := by
  refine ⟨migrateTrack "m" legacyBadTrack, ?_, ?_⟩
  · simp [getProject, legacyBadStored, migrateTracks]
  · refine ⟨{ clipId := "m", fileId := "f", name := "a", startTime := 0,
              startOffset := 0, duration := 0, sourceDuration := 0,
              isSelected := false }, ?_, rfl, ?_⟩
    · simp [migrateTrack, migratedClips, legacyBadTrack]
    · intro h
      have := h.2.1
      norm_num at this

/-- Witness for C9 (amended): the well-formed legacy value loads into a
project satisfying the section-3 constraints, and a saved project loads
back as itself with selection cleared. -/
theorem load_migrates_and_round_trips_witness :
    (0:Rat) ≤ 0 ∧
    storedValid 0 legacyGoodStored ∧
    selectedCount (getProject (fun _ => "m") legacyGoodStored) = 0 ∧
    projectInvariant 0 (getProject (fun _ => "m") legacyGoodStored) ∧
    getProject (fun _ => "m") (toStored samplePlayProject) =
      clearSelection samplePlayProject := by
  have hv : storedValid 0 legacyGoodStored := by
    refine fun t ht => ?_
    have he : t = legacyGoodTrack := by
      simpa [legacyGoodStored] using ht
    subst he
    refine ⟨⟨by norm_num [legacyGoodTrack], by norm_num [legacyGoodTrack]⟩,
      ⟨by norm_num [legacyGoodTrack], by norm_num [legacyGoodTrack]⟩,
      ?_, ?_⟩
    · intro cs hcs
      simp [legacyGoodTrack] at hcs
    · intro a _ ha
      have he2 : legacyGoodInline = a := by
        simpa [legacyGoodTrack] using ha
      rw [← he2]
      norm_num [legacyGoodInline]
  have T := load_migrates_and_round_trips 0 (le_refl 0) (fun _ => "m")
    legacyGoodStored samplePlayProject
  exact ⟨le_refl 0, hv, T.1, T.2.2.2.2.1 hv, T.2.2.2.2.2.1⟩

/-- Counterexample to C10 as stated: a set-loop pointer move whose
current time equals the anchor publishes the degenerate region
start = end = 1, which does not satisfy start < end. -/
theorem setLoop_degenerate_counterexample :
    setLoopRegion 1 1 = { start := 1, stop := 1 } ∧
    ¬ (setLoopRegion 1 1).start < (setLoopRegion 1 1).stop := by
  constructor
  · simp [setLoopRegion]
  · simp [setLoopRegion]

/-- C10 (amended).  A set-loop pointer move publishes exactly
{start = min(anchor, current), end = max(anchor, current)}; this always
satisfies start ≤ end, and start < end precisely when the current
pointer time differs from the anchor — so the project can momentarily
hold a degenerate region with start = end, but never start > end. -/
theorem setLoop_publishes_ordered_region (p : ProjectState)
    (anchor current : Rat) :
    (setLoopRegion anchor current).start = min anchor current ∧
    (setLoopRegion anchor current).stop = max anchor current ∧
    (setLoopRegion anchor current).start ≤
      (setLoopRegion anchor current).stop ∧
    (anchor ≠ current →
      (setLoopRegion anchor current).start <
        (setLoopRegion anchor current).stop) ∧
    (publishLoopRegion p anchor current).loopRegion =
      some (setLoopRegion anchor current) ∧
    (publishLoopRegion p anchor current).tracks = p.tracks := by
  refine ⟨rfl, rfl, min_le_max, ?_, rfl, rfl⟩
  intro hne
  exact min_lt_max.mpr hne

/-- Witness for C10 (amended): a pointer move with distinct anchor and
current time publishes a strictly ordered region. -/
theorem setLoop_publishes_ordered_region_witness :
    (1:Rat) ≠ 2 ∧
    (setLoopRegion 1 2).start < (setLoopRegion 1 2).stop := by
  refine ⟨by norm_num, ?_⟩
  exact (setLoop_publishes_ordered_region sampleNoSoloProject 1
    2).2.2.2.1 (by norm_num)

end DAWlite

